import Mathlib

/-
  Verification development for the clawa_ibkr_mnq trading agent.

  Shallow embedding of the core components:
  - risk sizing and the trading circuit breaker
    (risk_management.py RiskManager, strategy_v1.py RiskManagerV1);
  - fair-value-gap detection, market-structure classification,
    multi-timeframe signal synthesis (strategy_v1.py ICTSMCV1Strategy);
  - the R-multiple position lifecycle state machine
    (strategy_v1.py ICTSMCV1Strategy.update_trade / open_position);
  - the 1-minute bar store and the timeframe aggregation
    (data_manager.py DataManager.update / _resample_dataframe).

  Python floats are modelled as exact rationals; pandas timestamps are
  modelled as natural-number minute counts.
-/

namespace Clawa

/-- One OHLCV bar. Source columns open/high/low/close/volume
(open is a Lean keyword, hence op/hi/lo/cl/vol). -/
structure Bar where
  op : ℚ
  hi : ℚ
  lo : ℚ
  cl : ℚ
  vol : ℚ
deriving DecidableEq

def defaultBar : Bar := ⟨0, 0, 0, 0, 0⟩

/-- config.py default: RISK_PERCENTAGE = 1.0 (percent of equity risked per trade). -/
def RISK_PERCENTAGE : ℚ := 1

/-- config.py default: MAX_POSITION_SIZE = 10 contracts. -/
def MAX_POSITION_SIZE : ℤ := 10

/-- config.py default: DAILY_LOSS_LIMIT = 3.0 (percent of equity). -/
def DAILY_LOSS_LIMIT : ℚ := 3

/-- config.py default: FVG_SENSITIVITY = 0.8. -/
def FVG_SENSITIVITY : ℚ := 4 / 5

/-- Maximum of a list of rationals, 0 for the empty list (Python max on a
nonempty sequence; the 0 default is never reached on the guarded paths). -/
def listMaxD : List ℚ → ℚ
  | [] => 0
  | x :: xs => xs.foldl max x

/-- Minimum of a list of rationals, 0 for the empty list. -/
def listMinD : List ℚ → ℚ
  | [] => 0
  | x :: xs => xs.foldl min x

/-- Python slice l[-n:]. -/
def lastN (n : ℕ) (l : List α) : List α := l.drop (l.length - n)

/-- risk_management.py, RiskManager.calculate_position_size (with
update_account_info having stored the equity).  Returns 0 on nonpositive
equity or nonpositive per-contract risk, otherwise
max(min(int(risk_amount / risk_per_contract), MAX_POSITION_SIZE), 0).
Python int() truncates toward zero; on this path the quotient is positive,
so truncation coincides with the floor used here. -/
def rm_calculate_position_size (equity entry_price stop_loss : ℚ) : ℤ :=
  if equity ≤ 0 then 0
  else
    let risk_amount := equity * (RISK_PERCENTAGE / 100)
    let risk_per_contract := |entry_price - stop_loss| * 2
    if risk_per_contract ≤ 0 then 0
    else max (min ⌊risk_amount / risk_per_contract⌋ MAX_POSITION_SIZE) 0

/-- strategy_v1.py, RiskManagerV1.calculate_position_size.  Differs from
RiskManager: it returns 1 (not 0) when the per-contract risk is
nonpositive, and applies only the upper clamp. -/
def v1_calculate_position_size (capital entry_price stop_loss : ℚ) : ℤ :=
  if capital ≤ 0 then 0
  else
    let risk_amount := capital * (RISK_PERCENTAGE / 100)
    let risk_per_contract := |entry_price - stop_loss| * 2
    if risk_per_contract ≤ 0 then 1
    else min ⌊risk_amount / risk_per_contract⌋ MAX_POSITION_SIZE

/-- strategy_v1.py, RiskManagerV1.should_trade: blocks when the absolute
daily P and L reaches the daily loss limit, or capital is under 1000. -/
def v1_should_trade (capital daily_pnl : ℚ) : Bool :=
  if |daily_pnl| ≥ capital * (DAILY_LOSS_LIMIT / 100) then false
  else if capital < 1000 then false
  else true

/-- risk_management.py, RiskManager.update_account_info composed with
RiskManager.should_trade: daily_loss is abs(daily_pnl) for a losing day and
0 otherwise, so a daily gain never trips this breaker. -/
def rm_should_trade (equity daily_pnl : ℚ) : Bool :=
  let daily_loss := if daily_pnl < 0 then |daily_pnl| else 0
  if daily_loss ≥ equity * (DAILY_LOSS_LIMIT / 100) then false
  else if equity < 1000 then false
  else true

/-- Direction of a fair value gap. -/
inductive FvgDir
  | bull
  | bear
deriving DecidableEq

/-- A detected fair value gap, as appended by
ICTSMCV1Strategy.detect_fvg (fields type/low/high/gap/index). -/
structure Fvg where
  dir : FvgDir
  lo : ℚ
  hi : ℚ
  gap : ℚ
  idx : ℕ
deriving DecidableEq

/-- Average range of the three bars i-2, i-1, i, as computed inside
detect_fvg. -/
def three_bar_avg_range (data : List Bar) (i : ℕ) : ℚ :=
  let p := data.getD (i - 2) defaultBar
  let m := data.getD (i - 1) defaultBar
  let c := data.getD i defaultBar
  (p.hi - p.lo + (m.hi - m.lo) + (c.hi - c.lo)) / 3

/-- The body of one iteration of the detect_fvg loop at index i:
bullish when bar i opens a gap above bar i-2 whose size beats the
sensitivity threshold, else (elif) the bearish mirror. -/
def fvg_at (data : List Bar) (sensitivity : ℚ) (i : ℕ) : Option Fvg :=
  if i < 2 ∨ data.length ≤ i then none
  else
    let p := data.getD (i - 2) defaultBar
    let c := data.getD i defaultBar
    if p.hi < c.lo then
      if three_bar_avg_range data i * sensitivity < c.lo - p.hi then
        some ⟨FvgDir.bull, p.hi, c.lo, c.lo - p.hi, i⟩
      else none
    else if c.hi < p.lo then
      if three_bar_avg_range data i * sensitivity < p.lo - c.hi then
        some ⟨FvgDir.bear, c.hi, p.lo, p.lo - c.hi, i⟩
      else none
    else none

/-- strategy_v1.py, ICTSMCV1Strategy.detect_fvg: scan indices 2..len-1 in
order, appending at most one gap per index. -/
def detect_fvg (data : List Bar) (sensitivity : ℚ) : List Fvg :=
  (List.range data.length).filterMap (fvg_at data sensitivity)

/-- Per-timeframe trend classification values. -/
inductive Trend
  | bullish
  | bearish
  | ranging
  | unknown
deriving DecidableEq

/-- Result of analyze_market_structure. -/
structure MarketStructure where
  trend : Trend
  bos : Bool
  choch : Bool
deriving DecidableEq

/-- strategy_v1.py, ICTSMCV1Strategy.analyze_market_structure: with fewer
than 5 bars everything is unknown; otherwise the trend compares the last
bar's high/low to the previous bar's, BOS compares against the extremes of
the four bars before the last, CHoCH flags an adverse low/high. -/
def analyze_market_structure (data : List Bar) : MarketStructure :=
  if data.length < 5 then ⟨Trend.unknown, false, false⟩
  else
    let n := data.length
    let recent_high := (data.getD (n - 1) defaultBar).hi
    let recent_low := (data.getD (n - 1) defaultBar).lo
    let prev_high := (data.getD (n - 2) defaultBar).hi
    let prev_low := (data.getD (n - 2) defaultBar).lo
    let trend :=
      if prev_high < recent_high ∧ prev_low < recent_low then Trend.bullish
      else if recent_high < prev_high ∧ recent_low < prev_low then Trend.bearish
      else Trend.ranging
    let w := (data.drop (n - 5)).take 4
    let bos :=
      (trend == Trend.bullish && decide (listMaxD (w.map Bar.hi) < recent_high)) ||
      (trend == Trend.bearish && decide (recent_low < listMinD (w.map Bar.lo)))
    let choch :=
      (trend == Trend.bullish && decide (recent_low < prev_low)) ||
      (trend == Trend.bearish && decide (prev_high < recent_high))
    ⟨trend, bos, choch⟩

/-- strategy_v1.py, ICTSMCV1Strategy.find_liquidity: the top-3 highs of the
last 20 bars collapse to their max, the bottom-3 lows to their min. -/
def find_liquidity (data : List Bar) : ℚ × ℚ :=
  let t := lastN 20 data
  (listMaxD (t.map Bar.hi), listMinD (t.map Bar.lo))

/-- The four dataframes handed to the multi-timeframe analysis. -/
structure MtfData where
  d4hr : List Bar
  d1hr : List Bar
  d15min : List Bar
  d5min : List Bar

/-- Trade direction. -/
inductive Dir
  | BUY
  | SELL
deriving DecidableEq

/-- Result dict of analyze_multi_timeframe. -/
structure MtfResult where
  trend_4hr : Trend
  trend_1hr : Trend
  trend_15min : Trend
  fvg_aligned : Bool
  liquidity_high : ℚ
  liquidity_low : ℚ
  direction : Option Dir
  confidence : ℚ

/-- strategy_v1.py, ICTSMCV1Strategy.analyze_multi_timeframe.  All four
timeframes are always supplied (possibly empty), matching the live call
sites, so the liquidity keys are always present; for an empty 15min frame
the liquidity values are junk but every consumer is guarded by a 20-bar
minimum before using them. -/
def analyze_multi_timeframe (data : MtfData) : MtfResult :=
  let t4 := if 5 ≤ data.d4hr.length then (analyze_market_structure data.d4hr).trend
            else Trend.unknown
  let t1 := if 5 ≤ data.d1hr.length then (analyze_market_structure data.d1hr).trend
            else Trend.unknown
  let t15 := if 10 ≤ data.d15min.length then (analyze_market_structure data.d15min).trend
             else Trend.unknown
  let aligned :=
    decide (detect_fvg data.d1hr FVG_SENSITIVITY ≠ []) ||
    decide (detect_fvg data.d15min FVG_SENSITIVITY ≠ []) ||
    decide (detect_fvg data.d5min FVG_SENSITIVITY ≠ [])
  let liq := find_liquidity data.d15min
  let dc : Option Dir × ℚ :=
    if t4 = Trend.bullish ∧ (t1 = Trend.bullish ∨ t1 = Trend.ranging) ∧
       t15 = Trend.bullish then (some Dir.BUY, 17/20)
    else if t4 = Trend.bearish ∧ (t1 = Trend.bearish ∨ t1 = Trend.ranging) ∧
       t15 = Trend.bearish then (some Dir.SELL, 17/20)
    else if t15 = Trend.bullish ∧ aligned = true then (some Dir.BUY, 3/5)
    else if t15 = Trend.bearish ∧ aligned = true then (some Dir.SELL, 3/5)
    else (none, 0)
  ⟨t4, t1, t15, aligned, liq.1, liq.2, dc.1, dc.2⟩

/-- The signal dict returned by generate_signal (the nested mtf_analysis
echo is dropped; its fields of record are the three trends kept here). -/
structure Signal where
  act : Dir
  entry_price : ℚ
  stop_loss : ℚ
  risk_distance : ℚ
  take_profit : ℚ
  confidence : ℚ
  trend_4hr : Trend
  trend_1hr : Trend
  trend_15min : Trend
deriving DecidableEq

/-- The valid-FVG scan over the last five detected gaps in generate_signal:
a BUY needs a bullish gap with low ≤ price ≤ high + 10, a SELL needs a
bearish gap with high ≥ price ≥ low - 10. -/
def valid_fvg_check (fvgs : List Fvg) (dir : Dir) (p : ℚ) : Bool :=
  (lastN 5 fvgs).any fun f =>
    match dir with
    | Dir.BUY => f.dir == FvgDir.bull && decide (f.lo ≤ p) && decide (p ≤ f.hi + 10)
    | Dir.SELL => f.dir == FvgDir.bear && decide (p ≤ f.hi) && decide (f.lo - 10 ≤ p)

/-- The confidence assembly at the end of generate_signal: base
confidence raised by 0.1 per recent gap (last ten), capped at 0.95, plus
0.1 for a break of structure and 0.05 for a change of character, finally
clamped to at most 1. -/
def final_confidence (base : ℚ) (nfvgs : ℕ) (st : MarketStructure) : ℚ :=
  min (min (base + (1/10) * nfvgs) (19/20) +
    (if st.bos then 1/10 else 0) + (if st.choch then 1/20 else 0)) 1

/-- strategy_v1.py, ICTSMCV1Strategy.generate_signal.  The two stateful
guards (an active trade, a signal within the last 5 minutes) are passed as
booleans; everything else is a pure function of the timeframe data and the
current price. -/
def generate_signal (has_active recent_signal : Bool) (data : MtfData)
    (current_price : ℚ) : Option Signal :=
  if has_active then none
  else if recent_signal then none
  else
    let mtf := analyze_multi_timeframe data
    match mtf.direction with
    | none => none
    | some dir =>
      if mtf.confidence < 1/2 then none
      else if data.d15min.length < 20 then none
      else
        let fvgs := detect_fvg data.d15min FVG_SENSITIVITY
        if valid_fvg_check fvgs dir current_price = false then none
        else
          let high_liq := mtf.liquidity_high
          let low_liq := mtf.liquidity_low
          match dir with
          | Dir.BUY =>
            if high_liq ≤ current_price then none
            else
              let risk_distance := current_price - low_liq + 5
              let stop_loss := low_liq - 5
              if risk_distance ≤ 0 then none
              else
                some ⟨Dir.BUY, current_price, stop_loss, risk_distance,
                  current_price + risk_distance * 4,
                  final_confidence mtf.confidence (lastN 10 fvgs).length
                    (analyze_market_structure data.d15min),
                  mtf.trend_4hr, mtf.trend_1hr, mtf.trend_15min⟩
          | Dir.SELL =>
            if current_price ≤ low_liq then none
            else
              let risk_distance := high_liq + 5 - current_price
              let stop_loss := high_liq + 5
              if risk_distance ≤ 0 then none
              else
                some ⟨Dir.SELL, current_price, stop_loss, risk_distance,
                  current_price - risk_distance * 4,
                  final_confidence mtf.confidence (lastN 10 fvgs).length
                    (analyze_market_structure data.d15min),
                  mtf.trend_4hr, mtf.trend_1hr, mtf.trend_15min⟩

/-- An open position, as built by ICTSMCV1Strategy.open_position.  The
source fields partial_filled / partial_size are rendered half_filled /
half_size. -/
structure Trade where
  act : Dir
  entry_price : ℚ
  stop_loss : ℚ
  take_profit : ℚ
  risk_distance : ℚ
  size : ℕ
  trail_level : ℚ
  half_filled : Bool
  half_size : ℕ
deriving DecidableEq

/-- strategy_v1.py, ICTSMCV1Strategy.open_position. -/
def open_position (s : Signal) (position_size : ℕ) : Trade :=
  ⟨s.act, s.entry_price, s.stop_loss, s.take_profit, s.risk_distance,
   position_size, 0, false, 0⟩

/-- The action tag of a TRAIL_LEVELS entry
(source strings: partial / trail / close). -/
inductive LvlAct
  | takeHalf
  | trailSL
  | closeTP
deriving DecidableEq

/-- strategy_v1.py, ICTSMCV1Strategy.TRAIL_LEVELS, already in the ascending
order produced by sorted(...items()). -/
def TRAIL_LEVELS : List (ℚ × LvlAct × ℚ) :=
  [(3/2, LvlAct.takeHalf, 1/2), (2, LvlAct.trailSL, 1),
   (3, LvlAct.trailSL, 2), (4, LvlAct.closeTP, 3)]

/-- Action field of the dict returned by update_trade
(source strings: hold / partial_close / trail_stop / close). -/
inductive UAct
  | hold
  | half_close
  | tstop
  | closeAll
deriving DecidableEq

/-- The dict returned by update_trade, flattened to one record; keys a
branch does not set are 0 / empty.  The field lvl is a ghost observation
recording which TRAIL_LEVELS entry produced the result (none for hold and
for the stop-loss close); it duplicates information already visible in the
action and stop fields and is used only to state the fires-at-most-once
property. -/
structure URes where
  act : UAct
  size : ℕ
  price : ℚ
  rr : ℚ
  new_stop : ℚ
  pnl : ℚ
  reason : String
  lvl : Option ℚ
deriving DecidableEq

def holdRes (rr : ℚ) : URes := ⟨UAct.hold, 0, 0, rr, 0, 0, "", none⟩

/-- The stop price for one trail step: entry plus (for a BUY) or minus
(for a SELL) the configured multiple of the risk distance. -/
def trail_stop_price (t : Trade) (ts : ℚ) : ℚ :=
  if t.act = Dir.BUY then t.entry_price + t.risk_distance * ts
  else t.entry_price - t.risk_distance * ts

/-- Realised P and L at a per-point difference d: d × size × multiplier 2
for the remaining tranche, plus the same for the earlier half when one was
taken (the source adds the second term under an if partial_size > 0). -/
def leg_pnl (d : ℚ) (t : Trade) : ℚ :=
  d * t.size * 2 + (if 0 < t.half_size then d * t.half_size * 2 else 0)

/-- The stop-loss check at the end of update_trade: for a BUY, a price at
or below the stop closes everything, realising P and L from the remaining
size and (if present) the earlier half; dually for a SELL. -/
def stop_check (t : Trade) (rr cp : ℚ) : Option Trade × URes :=
  match t.act with
  | Dir.BUY =>
    if cp ≤ t.stop_loss then
      (none, ⟨UAct.closeAll, 0, 0, rr, 0,
        leg_pnl (t.stop_loss - t.entry_price) t, "止损", none⟩)
    else (some t, holdRes rr)
  | Dir.SELL =>
    if t.stop_loss ≤ cp then
      (none, ⟨UAct.closeAll, 0, 0, rr, 0,
        leg_pnl (t.entry_price - t.stop_loss) t, "止损", none⟩)
    else (some t, holdRes rr)

/-- The for-loop over sorted TRAIL_LEVELS inside update_trade.  A level
fires when rr has reached it and trail_level is still below it; the
partial branch additionally requires partial_filled to be false, else the
loop continues with the raised trail_level (faithful to the source, where
that branch falls through).  When no level returns, the trailing stop-loss
check runs on the (possibly trail-raised) trade. -/
def level_loop (t : Trade) (rr cp : ℚ) :
    List (ℚ × LvlAct × ℚ) → Option Trade × URes
  | [] => stop_check t rr cp
  | (lvl, LvlAct.takeHalf, ts) :: rest =>
    if lvl ≤ rr ∧ t.trail_level < lvl then
      if t.half_filled = false then
        (some { t with trail_level := lvl, half_filled := true,
                       half_size := t.size / 2, size := t.size - t.size / 2,
                       stop_loss := trail_stop_price t ts },
         ⟨UAct.half_close, t.size / 2, cp, rr, trail_stop_price t ts, 0, "",
          some lvl⟩)
      else level_loop { t with trail_level := lvl } rr cp rest
    else level_loop t rr cp rest
  | (lvl, LvlAct.trailSL, ts) :: rest =>
    if lvl ≤ rr ∧ t.trail_level < lvl then
      (some { t with trail_level := lvl, stop_loss := trail_stop_price t ts },
       ⟨UAct.tstop, 0, 0, rr, trail_stop_price t ts, 0, "", some lvl⟩)
    else level_loop t rr cp rest
  | (lvl, LvlAct.closeTP, ts) :: rest =>
    if lvl ≤ rr ∧ t.trail_level < lvl then
      (none, ⟨UAct.closeAll, 0, 0, rr, 0,
        leg_pnl (t.take_profit - t.entry_price) t, "4R止盈", some lvl⟩)
    else level_loop t rr cp rest

/-- strategy_v1.py, ICTSMCV1Strategy.update_trade, as a transition of the
optional active trade: compute the unrealized R multiple, walk the sorted
trail levels, then fall back to the stop-loss check. -/
def update_trade : Option Trade → ℚ → Option Trade × URes
  | none, _ => (none, ⟨UAct.hold, 0, 0, 0, 0, 0, "", none⟩)
  | some t, cp =>
    let rr := if t.act = Dir.BUY then (cp - t.entry_price) / t.risk_distance
              else (t.entry_price - cp) / t.risk_distance
    level_loop t rr cp TRAIL_LEVELS

/-- Replay update_trade over a price sequence, collecting the returned
instruction dicts in order. -/
def run_trade : Option Trade → List ℚ → List URes
  | _, [] => []
  | s, cp :: ps =>
    (update_trade s cp).2 :: run_trade (update_trade s cp).1 ps

/-- The successive position states seen while replaying a price sequence,
starting state included. -/
def run_states : Option Trade → List ℚ → List (Option Trade)
  | s, [] => [s]
  | s, cp :: ps => s :: run_states (update_trade s cp).1 ps

/-- A timestamped base bar (minutes since an epoch, matching the 1-minute
resolution of data_manager.py). -/
abbrev TBar := ℕ × Bar

/-- The retention bound of the 1-minute store: tail(2880) (two days). -/
def RETENTION : ℕ := 2880

/-- pandas df[~df.index.duplicated(keep='last')]: keep an entry only if no
later entry carries the same timestamp. -/
def dedup_keep_last : List TBar → List TBar
  | [] => []
  | x :: xs =>
    if xs.any (fun y => y.1 == x.1) then dedup_keep_last xs
    else x :: dedup_keep_last xs

/-- pandas df.tail(RETENTION). -/
def tail_retention (l : List TBar) : List TBar := l.drop (l.length - RETENTION)

/-- data_manager.py, DataManager.update, the in-memory series transition:
a bar whose timestamp is at or before the last stored timestamp is
discarded (the series is returned unchanged and the method reports no new
bar); otherwise the bar is appended, duplicates are dropped keep-last and
the series is truncated to the retention bound. -/
def dm_update_step (df : List TBar) (nb : TBar) : List TBar :=
  match df.getLast? with
  | some last =>
    if nb.1 ≤ last.1 then df
    else tail_retention (dedup_keep_last (df ++ [nb]))
  | none => tail_retention (dedup_keep_last (df ++ [nb]))

/-- A sequence of DataManager.update calls. -/
def dm_run : List TBar → List TBar → List TBar
  | df, [] => df
  | df, nb :: rest => dm_run (dm_update_step df nb) rest

/-- The pandas resample group of window w: the base bars whose timestamp
falls in [w*k, (w+1)*k). -/
def window_group (k : ℕ) (df : List TBar) (w : ℕ) : List TBar :=
  df.filter (fun y => y.1 / k == w)

/-- The agg dict of DataManager._resample_dataframe applied to one
nonempty group: open first, high max, low min, close last, volume sum. -/
def agg_bar (g : TBar) (gs : List TBar) : Bar :=
  { op := g.2.op,
    hi := listMaxD ((g :: gs).map (fun x => x.2.hi)),
    lo := listMinD ((g :: gs).map (fun x => x.2.lo)),
    cl := ((g :: gs).getLast (List.cons_ne_nil g gs)).2.cl,
    vol := ((g :: gs).map (fun x => x.2.vol)).sum }

/-- Earliest timestamp of a base series (0 if empty; the resampler never
consults it on the empty series). -/
def minTimeD : List TBar → ℕ
  | [] => 0
  | x :: xs => xs.foldl (fun a y => min a y.1) x.1

/-- Latest timestamp of a base series (0 if empty). -/
def maxTimeD : List TBar → ℕ
  | [] => 0
  | x :: xs => xs.foldl (fun a y => max a y.1) x.1

/-- data_manager.py, DataManager._resample_dataframe with target frequency
k minutes: pandas lays a window grid over the span of the index, applies
the OHLCV agg dict per window, and dropna removes exactly the windows that
contain no base bar.  The output index holds each window's start time. -/
def resample_dataframe (k : ℕ) (df : List TBar) : List TBar :=
  match df with
  | [] => []
  | x :: xs =>
    let w0 := minTimeD (x :: xs) / k
    let w1 := maxTimeD (x :: xs) / k
    (List.range (w1 - w0 + 1)).filterMap (fun j =>
      match window_group k (x :: xs) (w0 + j) with
      | [] => none
      | g :: gs => some ((w0 + j) * k, agg_bar g gs))

/-- A flat 15-minute bar used to build concrete histories. -/
def flatBar : Bar := ⟨102, 105, 100, 102, 1⟩

/-- A concrete 21-bar 15-minute history: nineteen flat bars, one step-up
bar, and a final bar that gaps 15 points above the 19th bar's high,
producing exactly one bullish fair value gap and a bullish trend. -/
def bars15 : List Bar :=
  List.replicate 19 flatBar ++ [⟨108, 111, 106, 108, 1⟩, ⟨122, 125, 120, 123, 1⟩]

/-- Concrete multi-timeframe input: empty 4hr/1hr/5min frames and the
21-bar 15-minute history. -/
def mtfD0 : MtfData := ⟨[], [], bars15, []⟩

/-- The signal generate_signal emits on mtfD0 at price 124: secondary
(15min trend + gap) BUY at confidence 3/5, one gap and a BOS raising it to
4/5, liquidity low 100 giving stop 95 and risk 29. -/
def sig0 : Signal :=
  ⟨Dir.BUY, 124, 95, 29, 240, 4/5, Trend.unknown, Trend.unknown, Trend.bullish⟩

/-- The Buy signal of the C1 scenario: entry 18000, stop 17980, risk 20,
4R target 18080. -/
def sigC1 : Signal :=
  ⟨Dir.BUY, 18000, 17980, 20, 18080, 17/20, Trend.bullish, Trend.bullish,
   Trend.bullish⟩

/-- The C1 scenario position: the signal opened with 4 contracts. -/
def tradeC1 : Trade := open_position sigC1 4

/-- Three-bar scenario of the gap claim: bar1 high 100, bar3 low 110, all
ranges 5, so the gap of 10 beats the 0.8 sensitivity threshold of 4. -/
def gapBars : List Bar :=
  [⟨96, 100, 95, 99, 1⟩, ⟨101, 105, 100, 104, 1⟩, ⟨111, 115, 110, 114, 1⟩]

/-- Three concrete 1-minute bars at minutes 0, 1, 2 - only three of the
five constituents of the 5-minute window starting at 0. -/
def base3 : List TBar :=
  [(0, ⟨10, 12, 9, 11, 5⟩), (1, ⟨11, 14, 10, 13, 7⟩), (2, ⟨13, 13, 8, 9, 4⟩)]

/-- Two distinct bars sharing a timestamp, for the deduplication claims. -/
def barA : Bar := ⟨1, 2, 1, 2, 3⟩

def barB : Bar := ⟨4, 5, 4, 5, 6⟩

/-
  Theorems.  The rational arithmetic operations are irreducible by
  default; making them semireducible lets concrete runs of the embedded
  functions be settled by kernel evaluation.
-/

attribute [local semireducible] Rat.add Rat.mul Rat.sub Rat.inv

set_option maxRecDepth 100000

/-- C2 (corrected): sizing.  RiskManager.calculate_position_size behaves
exactly as the claim states: 0 on nonpositive equity or nonpositive
per-contract risk, otherwise the floored risk quotient clamped to
[0, MAX_POSITION_SIZE].  RiskManagerV1.calculate_position_size however
returns 1, not 0, when the per-contract risk is nonpositive (see the
counterexample); on positive equity and positive per-contract risk it
returns the floored quotient clamped above by MAX_POSITION_SIZE, it
returns 0 on nonpositive equity, and it always stays within
[0, MAX_POSITION_SIZE]. -/
theorem c2_position_sizing_amended (equity entry_price stop_loss : ℚ) :
    (equity ≤ 0 → rm_calculate_position_size equity entry_price stop_loss = 0) ∧
    (|entry_price - stop_loss| * 2 ≤ 0 →
      rm_calculate_position_size equity entry_price stop_loss = 0) ∧
    0 ≤ rm_calculate_position_size equity entry_price stop_loss ∧
    rm_calculate_position_size equity entry_price stop_loss ≤ MAX_POSITION_SIZE ∧
    (0 < equity → 0 < |entry_price - stop_loss| * 2 →
      rm_calculate_position_size equity entry_price stop_loss =
        min ⌊equity * (RISK_PERCENTAGE / 100) / (|entry_price - stop_loss| * 2)⌋
          MAX_POSITION_SIZE) ∧
    (equity ≤ 0 → v1_calculate_position_size equity entry_price stop_loss = 0) ∧
    (0 < equity → |entry_price - stop_loss| * 2 ≤ 0 →
      v1_calculate_position_size equity entry_price stop_loss = 1) ∧
    (0 < equity → 0 < |entry_price - stop_loss| * 2 →
      v1_calculate_position_size equity entry_price stop_loss =
        min ⌊equity * (RISK_PERCENTAGE / 100) / (|entry_price - stop_loss| * 2)⌋
          MAX_POSITION_SIZE) ∧
    0 ≤ v1_calculate_position_size equity entry_price stop_loss ∧
    v1_calculate_position_size equity entry_price stop_loss ≤ MAX_POSITION_SIZE := by
  have hq : ∀ e r : ℚ, 0 < e → 0 < r → (0 : ℤ) ≤ ⌊e * (RISK_PERCENTAGE / 100) / r⌋ := by
    intro e r he hr
    refine Int.floor_nonneg.mpr ?_
    have h100 : (0 : ℚ) < RISK_PERCENTAGE / 100 := by norm_num [RISK_PERCENTAGE]
    positivity
  refine ⟨?_, ?_, ?_, ?_, ?_, ?_, ?_, ?_, ?_, ?_⟩
  · intro h
    simp only [rm_calculate_position_size]
    rw [if_pos h]
  · intro h
    simp only [rm_calculate_position_size]
    split_ifs with h1 h2 <;> first | rfl | exact absurd h h2
  · simp only [rm_calculate_position_size]
    split_ifs <;> first | rfl | exact le_max_right _ _
  · simp only [rm_calculate_position_size]
    split_ifs <;>
      first
        | norm_num [MAX_POSITION_SIZE]
        | exact max_le (min_le_right _ _) (by norm_num [MAX_POSITION_SIZE])
  · intro he hr
    simp only [rm_calculate_position_size]
    rw [if_neg (not_le.mpr he), if_neg (not_le.mpr hr)]
    exact max_eq_left (le_min (hq _ _ he hr) (by norm_num [MAX_POSITION_SIZE]))
  · intro h
    simp only [v1_calculate_position_size]
    rw [if_pos h]
  · intro he hr
    simp only [v1_calculate_position_size]
    rw [if_neg (not_le.mpr he), if_pos hr]
  · intro he hr
    simp only [v1_calculate_position_size]
    rw [if_neg (not_le.mpr he), if_neg (not_le.mpr hr)]
  · simp only [v1_calculate_position_size]
    split_ifs with h1 h2 <;>
      first
        | rfl
        | exact le_min (hq _ _ (not_le.mp h1) (not_le.mp h2))
            (by norm_num [MAX_POSITION_SIZE])
        | norm_num
  · simp only [v1_calculate_position_size]
    split_ifs <;>
      first
        | norm_num [MAX_POSITION_SIZE]
        | exact min_le_right _ _

/-- C2 counterexample: with entry equal to stop the per-contract risk is
0 ≤ 0, yet RiskManagerV1.calculate_position_size returns 1 where the claim
demands 0. -/
theorem c2_counterexample :
    v1_calculate_position_size 100000 18000 18000 = 1 ∧
    |(18000 : ℚ) - 18000| * 2 ≤ 0 := by decide

/-- C2 witness: a live instantiation of the amended sizing theorem at
equity 100000, entry 18000, stop 17980, for both sizing functions. -/
theorem c2_witness :
    0 < (100000 : ℚ) ∧ 0 < |(18000 : ℚ) - 17980| * 2 ∧
    rm_calculate_position_size 100000 18000 17980 =
      min ⌊(100000 : ℚ) * (RISK_PERCENTAGE / 100) / (|(18000 : ℚ) - 17980| * 2)⌋
        MAX_POSITION_SIZE ∧
    v1_calculate_position_size 100000 18000 17980 =
      min ⌊(100000 : ℚ) * (RISK_PERCENTAGE / 100) / (|(18000 : ℚ) - 17980| * 2)⌋
        MAX_POSITION_SIZE :=
  ⟨by norm_num, by norm_num,
    (c2_position_sizing_amended 100000 18000 17980).2.2.2.2.1
      (by norm_num) (by norm_num),
    (c2_position_sizing_amended 100000 18000 17980).2.2.2.2.2.2.2.1
      (by norm_num) (by norm_num)⟩

/-- C7 (corrected): the circuit breaker.  RiskManagerV1.should_trade
matches the claim exactly: it trades iff the absolute daily P and L is
under the daily limit and capital is at least 1000, so a large gain blocks
trading.  RiskManager.should_trade does not: update_account_info records a
daily loss of 0 for any gain, so only losing days can trip the limit (see
the counterexample). -/
theorem c7_should_trade_amended (capital daily_pnl : ℚ) :
    (v1_should_trade capital daily_pnl = true ↔
      |daily_pnl| < capital * (DAILY_LOSS_LIMIT / 100) ∧ 1000 ≤ capital) ∧
    (rm_should_trade capital daily_pnl = true ↔
      (daily_pnl < 0 → |daily_pnl| < capital * (DAILY_LOSS_LIMIT / 100)) ∧
        1000 ≤ capital) := by
  constructor
  · unfold v1_should_trade
    split_ifs with h1 h2
    · constructor
      · intro hft
        exact hft.elim
      · rintro ⟨ha, hb⟩
        exfalso
        linarith
    · constructor
      · intro hft
        exact hft.elim
      · rintro ⟨ha, hb⟩
        exfalso
        linarith
    · constructor
      · intro hx
        exact ⟨not_le.mp h1, not_lt.mp h2⟩
      · intro hx
        trivial
  · have hdll : DAILY_LOSS_LIMIT / 100 = 3 / 100 := by norm_num [DAILY_LOSS_LIMIT]
    simp only [rm_should_trade]
    by_cases hp : daily_pnl < 0
    · rw [if_pos hp]
      split_ifs with h1 h2
      · constructor
        · intro hft
          exact hft.elim
        · rintro ⟨ha, hb⟩
          exact absurd (ha hp) (not_lt.mpr h1)
      · constructor
        · intro hft
          exact hft.elim
        · rintro ⟨ha, hb⟩
          exfalso
          linarith
      · constructor
        · intro hx
          exact ⟨fun _ => not_le.mp h1, not_lt.mp h2⟩
        · intro hx
          trivial
    · rw [if_neg hp]
      split_ifs with h1 h2
      · constructor
        · intro hft
          exact hft.elim
        · rintro ⟨ha, hb⟩
          rw [hdll] at h1
          exfalso
          linarith
      · constructor
        · intro hft
          exact hft.elim
        · rintro ⟨ha, hb⟩
          exfalso
          linarith
      · constructor
        · intro hx
          exact ⟨fun hy => absurd hy hp, not_lt.mp h2⟩
        · intro hx
          trivial

/-- C7 counterexample: a daily gain of 5000 on equity 100000 meets
abs(dailyPnl) ≥ equity×3% (3000), so the claim demands shouldTrade =
false, but RiskManager.should_trade still returns true. -/
theorem c7_counterexample :
    rm_should_trade 100000 5000 = true ∧
    (100000 : ℚ) * (DAILY_LOSS_LIMIT / 100) ≤ |(5000 : ℚ)| := by decide

/-- C1 (corrected): the replay scenario.  At 18030 the manager does issue
the 1.5R partial close of half the size (2 of 4) with the stop moved to
18010, as claimed.  But at 18005 the price is below that moved stop, so
the position closes with the stop-loss reason, realising P and L from both
tranches (10 points on 2 remaining + 2 half contracts at multiplier 2 =
80); the claim's assertion that no stop is hit is wrong.  At 18080 no
position remains and the manager holds. -/
theorem c1_scenario_amended :
    (update_trade (some tradeC1) 18030).2.act = UAct.half_close ∧
    (update_trade (some tradeC1) 18030).2.size = 2 ∧
    (update_trade (some tradeC1) 18030).2.rr = 3/2 ∧
    (update_trade (some tradeC1) 18030).2.new_stop = 18010 ∧
    (update_trade ((update_trade (some tradeC1) 18030).1) 18005).2.act =
      UAct.closeAll ∧
    (update_trade ((update_trade (some tradeC1) 18030).1) 18005).2.reason =
      "止损" ∧
    (update_trade ((update_trade (some tradeC1) 18030).1) 18005).2.pnl = 80 ∧
    (update_trade ((update_trade (some tradeC1) 18030).1) 18005).1 = none ∧
    (update_trade ((update_trade ((update_trade (some tradeC1) 18030).1)
      18005).1) 18080).2.act = UAct.hold := by decide

/-- C1 counterexample: the claim says that at 18005 no stop is hit and the
position stays open; in fact the 1.5R step moved the stop to 18010, so at
18005 the position is closed with the stop-loss reason and no position
survives to see 18080. -/
theorem c1_counterexample :
    (update_trade ((update_trade (some tradeC1) 18030).1) 18005).1 = none ∧
    (update_trade ((update_trade (some tradeC1) 18030).1) 18005).2.reason =
      "止损" := by decide

theorem level_loop_mono (levels : List (ℚ × LvlAct × ℚ)) (t : Trade)
    (rr cp : ℚ) (t' : Trade)
    (h : (level_loop t rr cp levels).1 = some t') :
    t.trail_level ≤ t'.trail_level := by
  induction levels generalizing t with
  | nil =>
    simp only [level_loop, stop_check] at h
    cases ht : t.act <;> simp only [ht] at h <;> split_ifs at h
    all_goals
      first
        | exact Option.noConfusion h
        | (cases Option.some.inj h; exact le_refl _)
  | cons e rest ih =>
    obtain ⟨lvl, act, ts⟩ := e
    cases act <;> simp only [level_loop] at h <;> split_ifs at h with htr hpf
    all_goals
      first
        | (cases Option.some.inj h; exact le_of_lt htr.2)
        | exact le_trans (le_of_lt htr.2) (ih _ h)
        | exact ih _ h
        | exact Option.noConfusion h

theorem level_loop_fired_lt (levels : List (ℚ × LvlAct × ℚ)) (t : Trade)
    (rr cp : ℚ) (L : ℚ)
    (h : (level_loop t rr cp levels).2.lvl = some L) :
    t.trail_level < L := by
  induction levels generalizing t with
  | nil =>
    simp only [level_loop, stop_check] at h
    cases ht : t.act <;> simp only [ht] at h <;> split_ifs at h <;>
      exact Option.noConfusion h
  | cons e rest ih =>
    obtain ⟨lvl, act, ts⟩ := e
    cases act <;> simp only [level_loop] at h <;> split_ifs at h with htr hpf
    all_goals
      first
        | (cases Option.some.inj h; exact htr.2)
        | exact lt_trans htr.2 (ih _ h)
        | exact ih _ h

theorem level_loop_fired_ge (levels : List (ℚ × LvlAct × ℚ)) (t : Trade)
    (rr cp : ℚ) (L : ℚ)
    (h : (level_loop t rr cp levels).2.lvl = some L) :
    (level_loop t rr cp levels).1 = none ∨
      ∃ t', (level_loop t rr cp levels).1 = some t' ∧ L ≤ t'.trail_level := by
  induction levels generalizing t with
  | nil =>
    simp only [level_loop, stop_check] at h ⊢
    cases ht : t.act <;> simp only [ht] at h ⊢ <;> split_ifs at h ⊢ <;>
      exact Option.noConfusion h
  | cons e rest ih =>
    obtain ⟨lvl, act, ts⟩ := e
    cases act <;> simp only [level_loop] at h ⊢ <;>
      split_ifs at h ⊢ with htr hpf
    all_goals
      first
        | (cases Option.some.inj h; exact Or.inr ⟨_, rfl, le_refl _⟩)
        | exact Or.inl rfl
        | exact ih _ h

theorem run_states_head (s : Option Trade) (ps : List ℚ) :
    (run_states s ps).head? = some s := by
  cases ps <;> rfl

theorem update_trade_none (cp : ℚ) :
    update_trade none cp = (none, ⟨UAct.hold, 0, 0, 0, 0, 0, "", none⟩) := rfl

theorem run_states_chain (s : Option Trade) (ps : List ℚ) :
    List.Chain' (fun a b : Option Trade => ∀ t t', a = some t → b = some t' →
      t.trail_level ≤ t'.trail_level) (run_states s ps) := by
  induction ps generalizing s with
  | nil => simp [run_states]
  | cons cp ps ih =>
    rw [run_states, List.chain'_cons']
    refine ⟨?_, ih _⟩
    intro y hy t t' hs hy'
    rw [run_states_head] at hy
    cases Option.some.inj hy
    subst hs
    have h1 : (update_trade (some t) cp).1 = some t' := hy'
    simp only [update_trade] at h1
    exact level_loop_mono _ _ _ _ _ h1

theorem run_trade_count_zero (s : Option Trade) (ps : List ℚ) (L : ℚ)
    (hge : ∀ t, s = some t → L ≤ t.trail_level) :
    (run_trade s ps).countP (fun r => decide (r.lvl = some L)) = 0 := by
  induction ps generalizing s with
  | nil => rfl
  | cons cp ps ih =>
    rw [run_trade, List.countP_cons]
    have hfalse : decide ((update_trade s cp).2.lvl = some L) = false := by
      apply decide_eq_false
      intro hl
      cases s with
      | none => exact Option.noConfusion hl
      | some t =>
        have h1 := level_loop_fired_lt TRAIL_LEVELS t _ cp L
          (by simpa [update_trade] using hl)
        exact absurd (hge t rfl) (not_le.mpr h1)
    have hrest : ∀ t', (update_trade s cp).1 = some t' → L ≤ t'.trail_level := by
      intro t' h'
      cases s with
      | none =>
        rw [update_trade_none] at h'
        exact Option.noConfusion h'
      | some t =>
        have h1 : (level_loop t (if t.act = Dir.BUY
            then (cp - t.entry_price) / t.risk_distance
            else (t.entry_price - cp) / t.risk_distance) cp TRAIL_LEVELS).1 =
            some t' := by simpa [update_trade] using h'
        exact le_trans (hge t rfl) (level_loop_mono _ _ _ _ _ h1)
    simp [hfalse, ih _ hrest]

theorem run_trade_count_le_one (s : Option Trade) (ps : List ℚ) (L : ℚ) :
    (run_trade s ps).countP (fun r => decide (r.lvl = some L)) ≤ 1 := by
  induction ps generalizing s with
  | nil => simp [run_trade]
  | cons cp ps ih =>
    rw [run_trade, List.countP_cons]
    by_cases hl : (update_trade s cp).2.lvl = some L
    · have h0 : (run_trade (update_trade s cp).1 ps).countP
          (fun r => decide (r.lvl = some L)) = 0 := by
        refine run_trade_count_zero _ _ _ ?_
        intro t' h'
        cases s with
        | none => exact absurd hl (by rw [update_trade_none]; exact fun hx => Option.noConfusion hx)
        | some t =>
          have h2 := level_loop_fired_ge TRAIL_LEVELS t (if t.act = Dir.BUY
            then (cp - t.entry_price) / t.risk_distance
            else (t.entry_price - cp) / t.risk_distance) cp L
            (by simpa [update_trade] using hl)
          have h3 : (level_loop t (if t.act = Dir.BUY
              then (cp - t.entry_price) / t.risk_distance
              else (t.entry_price - cp) / t.risk_distance) cp TRAIL_LEVELS).1 =
              some t' := by simpa [update_trade] using h'
          rcases h2 with h2 | ⟨t'', h4, h5⟩
          · rw [h2] at h3
            exact Option.noConfusion h3
          · rw [h4] at h3
            cases Option.some.inj h3
            exact h5
      rw [h0]
      simp [hl]
    · have hfalse : decide ((update_trade s cp).2.lvl = some L) = false :=
        decide_eq_false hl
      rw [hfalse]
      simp only [Bool.false_eq_true, if_false, add_zero]
      exact ih _

/-- C6 (corrected): over the lifetime of one open position, replayed on
any price sequence, trail_level is monotonically non-decreasing across
evaluations, and each TRAIL_LEVELS transition fires at most once.  The
claim's stronger "fires exactly once" is false: on a price sequence that
never reaches a level, that transition fires zero times (see the
counterexample). -/
theorem c6_trail_monotone_at_most_once (t0 : Trade) (ps : List ℚ) :
    List.Chain' (fun a b : Option Trade => ∀ t t', a = some t → b = some t' →
      t.trail_level ≤ t'.trail_level) (run_states (some t0) ps) ∧
    ∀ L : ℚ, (run_trade (some t0) ps).countP
      (fun r => decide (r.lvl = some L)) ≤ 1 :=
  ⟨run_states_chain _ _, fun _ => run_trade_count_le_one _ _ _⟩

/-- C6 counterexample: the C1 scenario position evaluated on the single
price 18000 (unrealized R = 0) fires the 1.5R transition zero times, not
exactly once. -/
theorem c6_counterexample :
    (run_trade (some tradeC1) [18000]).countP
      (fun r => decide (r.lvl = some (3/2))) ≠ 1 := by decide

theorem le_getLast_of_sorted (df : List TBar)
    (hs : df.Pairwise (fun a b => a.1 < b.1)) (x : TBar) (hx : x ∈ df)
    (hne : df ≠ []) : x.1 ≤ (df.getLast hne).1 := by
  induction df with
  | nil => exact absurd rfl hne
  | cons a t iht =>
    cases t with
    | nil =>
      rcases List.mem_cons.mp hx with hxa | hxt
      · subst hxa
        exact le_refl _
      · exact absurd hxt (List.not_mem_nil x)
    | cons b t' =>
      rw [List.getLast_cons (by simp)]
      rcases List.mem_cons.mp hx with hxa | hxt
      · subst hxa
        have hmem := List.getLast_mem (l := b :: t') (by simp)
        exact le_of_lt ((List.pairwise_cons.mp hs).1 _ hmem)
      · exact iht (List.pairwise_cons.mp hs).2 hxt (by simp)

theorem dedup_keep_last_of_nodup_keys (l : List TBar)
    (h : l.Pairwise (fun a b => a.1 ≠ b.1)) : dedup_keep_last l = l := by
  induction l with
  | nil => rfl
  | cons x xs ih =>
    rw [dedup_keep_last]
    have hany : xs.any (fun y => y.1 == x.1) = false := by
      rw [List.any_eq_false]
      intro y hy hbeq
      exact ((List.pairwise_cons.mp h).1 y hy) (beq_iff_eq.mp hbeq).symm
    rw [hany]
    simp only [Bool.false_eq_true, if_false]
    rw [ih (List.pairwise_cons.mp h).2]

theorem dm_update_step_preserves (df : List TBar) (nb : TBar)
    (hs : df.Pairwise (fun a b => a.1 < b.1)) (hlen : df.length ≤ RETENTION) :
    (dm_update_step df nb).Pairwise (fun a b => a.1 < b.1) ∧
      (dm_update_step df nb).length ≤ RETENTION := by
  cases hgl : df.getLast? with
  | none =>
    have hdf : df = [] := by
      cases df with
      | nil => rfl
      | cons a t => exact absurd hgl (by simp [List.getLast?_eq_getLast])
    subst hdf
    constructor
    · simp [dm_update_step, dedup_keep_last, tail_retention, RETENTION]
    · simp [dm_update_step, dedup_keep_last, tail_retention, RETENTION]
  | some last =>
    simp only [dm_update_step, hgl]
    split_ifs with hle
    · exact ⟨hs, hlen⟩
    · have hne : df ≠ [] := by
        intro h
        rw [h] at hgl
        exact Option.noConfusion hgl
      have hlast : last = df.getLast hne := by
        rw [List.getLast?_eq_getLast df hne] at hgl
        exact (Option.some.inj hgl).symm
      have happ : (df ++ [nb]).Pairwise (fun a b => a.1 < b.1) := by
        rw [List.pairwise_append]
        refine ⟨hs, List.pairwise_singleton _ _, ?_⟩
        intro a ha b hb
        rw [List.mem_singleton] at hb
        subst hb
        have h1 := le_getLast_of_sorted df hs a ha hne
        rw [← hlast] at h1
        exact lt_of_le_of_lt h1 (not_le.mp hle)
      have hnodup : (df ++ [nb]).Pairwise (fun a b => a.1 ≠ b.1) :=
        happ.imp (fun hab => ne_of_lt hab)
      rw [dedup_keep_last_of_nodup_keys _ hnodup]
      constructor
      · exact List.Pairwise.sublist (List.drop_sublist _ _) happ
      · simp only [tail_retention, List.length_drop]
        omega

/-- C4 (corrected): duplicate timestamps in the incremental append.
DataManager.update rejects any bar whose timestamp is at or before the
last stored timestamp, so a bar whose timestamp is already present leaves
the series unchanged: the previously stored value is kept and the newly
delivered value is discarded.  (The keep-last overwrite the claim
describes happens only in the batch merge paths _sync_latest_data and
_load_historical_data, not in the per-bar append.) -/
theorem c4_duplicate_dropped (df : List TBar) (nb : TBar)
    (hs : df.Pairwise (fun a b => a.1 < b.1))
    (hmem : nb.1 ∈ df.map Prod.fst) :
    dm_update_step df nb = df := by
  obtain ⟨x, hx, hxe⟩ := List.mem_map.mp hmem
  have hne : df ≠ [] := by
    rintro rfl
    exact absurd hx (List.not_mem_nil x)
  simp only [dm_update_step, List.getLast?_eq_getLast df hne]
  rw [if_pos]
  rw [← hxe]
  exact le_getLast_of_sorted df hs x hx hne

/-- C4 counterexample: a store holding barA at timestamp 1 receives a
different bar barB for the same timestamp 1; after the append the stored
bar is still barA, not the newly delivered barB as the claim requires. -/
theorem c4_counterexample :
    dm_update_step [(1, barA)] (1, barB) = [(1, barA)] ∧ barA ≠ barB := by
  decide

/-- C4 witness: the amended theorem applied to a concrete two-bar store
and a duplicate of its first timestamp. -/
theorem c4_witness :
    List.Pairwise (fun a b : TBar => a.1 < b.1) [(1, barA), (3, barB)] ∧
    (1 : ℕ) ∈ ([(1, barA), (3, barB)] : List TBar).map Prod.fst ∧
    dm_update_step [(1, barA), (3, barB)] (1, barB) = [(1, barA), (3, barB)] :=
  ⟨by decide, by decide, c4_duplicate_dropped _ _ (by decide) (by decide)⟩

/-- C5 (confirmed): starting from a strictly increasing base series within
the 2880-bar retention bound, any sequence of DataManager.update appends
keeps the series strictly increasing in timestamp and within the bound
(late-or-duplicate bars are rejected, genuinely new bars are appended and
the series is truncated to its newest 2880 entries). -/
theorem c5_retention_invariant (df bars : List TBar)
    (hs : df.Pairwise (fun a b => a.1 < b.1))
    (hlen : df.length ≤ RETENTION) :
    (dm_run df bars).Pairwise (fun a b => a.1 < b.1) ∧
      (dm_run df bars).length ≤ RETENTION := by
  induction bars generalizing df with
  | nil => exact ⟨hs, hlen⟩
  | cons nb rest ih =>
    rw [dm_run]
    obtain ⟨h1, h2⟩ := dm_update_step_preserves df nb hs hlen
    exact ih _ h1 h2

/-- C5 witness: the invariant run from the empty store over three appends,
one of which re-delivers an already-seen timestamp. -/
theorem c5_witness :
    List.Pairwise (fun a b : TBar => a.1 < b.1) ([] : List TBar) ∧
    ([] : List TBar).length ≤ RETENTION ∧
    ((dm_run [] [(1, barA), (2, barB), (1, barB)]).Pairwise
      (fun a b : TBar => a.1 < b.1) ∧
     (dm_run [] [(1, barA), (2, barB), (1, barB)]).length ≤ RETENTION) :=
  ⟨by decide, by decide, c5_retention_invariant _ _ (by decide) (by decide)⟩

theorem fvg_at_idx (data : List Bar) (s : ℚ) (j : ℕ) (f : Fvg)
    (h : fvg_at data s j = some f) : f.idx = j := by
  simp only [fvg_at] at h
  split_ifs at h <;> first
    | exact Option.noConfusion h
    | (cases Option.some.inj h; rfl)

theorem mem_detect_fvg (data : List Bar) (s : ℚ) (f : Fvg) :
    f ∈ detect_fvg data s ↔
      ∃ j, j < data.length ∧ fvg_at data s j = some f := by
  simp only [detect_fvg, List.mem_filterMap, List.mem_range]

theorem detect_fvg_at_iff (data : List Bar) (s : ℚ) (i : ℕ) (d : FvgDir)
    (h2 : 2 ≤ i) (hlen : i < data.length) :
    (∃ f ∈ detect_fvg data s, f.idx = i ∧ f.dir = d) ↔
      ∃ f, fvg_at data s i = some f ∧ f.dir = d := by
  constructor
  · rintro ⟨f, hf, hidx, hdir⟩
    obtain ⟨j, _, he⟩ := (mem_detect_fvg data s f).mp hf
    have hji := fvg_at_idx data s j f he
    rw [← hji, hidx] at he
    exact ⟨f, he, hdir⟩
  · rintro ⟨f, he, hdir⟩
    refine ⟨f, (mem_detect_fvg data s f).mpr ⟨i, hlen, he⟩, ?_, hdir⟩
    exact fvg_at_idx data s i f he

/-- C8 (confirmed): the gap detector.  For well-formed bars (low at most
high), a bullish gap is recorded at index i exactly when bar i's low
strictly exceeds bar i-2's high and the gap strictly exceeds the
sensitivity fraction of the three-bar average range; symmetrically for
bearish gaps.  The same three-bar logic appears verbatim in
MultiTimeframeStrategy._detect_fvg with per-timeframe sensitivities.  The
witness instantiates the spec scenario: bar1 high 100, bar3 low 110,
average range 5, sensitivity 0.8, gap 10 over threshold 4. -/
theorem c8_fvg_characterization (data : List Bar) (s : ℚ) (i : ℕ)
    (h2 : 2 ≤ i) (hlen : i < data.length)
    (hwf : ∀ b ∈ data, b.lo ≤ b.hi) :
    ((∃ f ∈ detect_fvg data s, f.idx = i ∧ f.dir = FvgDir.bull) ↔
      (data.getD (i - 2) defaultBar).hi < (data.getD i defaultBar).lo ∧
        three_bar_avg_range data i * s <
          (data.getD i defaultBar).lo - (data.getD (i - 2) defaultBar).hi) ∧
    ((∃ f ∈ detect_fvg data s, f.idx = i ∧ f.dir = FvgDir.bear) ↔
      (data.getD i defaultBar).hi < (data.getD (i - 2) defaultBar).lo ∧
        three_bar_avg_range data i * s <
          (data.getD (i - 2) defaultBar).lo - (data.getD i defaultBar).hi) := by
  have hguard : ¬(i < 2 ∨ data.length ≤ i) := by omega
  have hexcl : (data.getD i defaultBar).hi < (data.getD (i - 2) defaultBar).lo →
      ¬((data.getD (i - 2) defaultBar).hi < (data.getD i defaultBar).lo) := by
    intro hbear hbull
    have hc : data.getD i defaultBar ∈ data := by
      rw [List.getD_eq_getElem data defaultBar hlen]
      exact List.getElem_mem hlen
    have hp : data.getD (i - 2) defaultBar ∈ data := by
      have hlt : i - 2 < data.length := by omega
      rw [List.getD_eq_getElem data defaultBar hlt]
      exact List.getElem_mem hlt
    have h3 := hwf _ hc
    have h4 := hwf _ hp
    linarith
  constructor
  · rw [detect_fvg_at_iff data s i FvgDir.bull h2 hlen]
    simp only [fvg_at, hguard, if_false]
    constructor
    · rintro ⟨f, he, hdir⟩
      split_ifs at he with hb hthr hbear hthr'
      all_goals
        first
          | exact Option.noConfusion he
          | (cases Option.some.inj he; exact FvgDir.noConfusion hdir)
          | (cases Option.some.inj he; exact ⟨hb, hthr⟩)
    · rintro ⟨hb, hthr⟩
      rw [if_pos hb, if_pos hthr]
      exact ⟨_, rfl, rfl⟩
  · rw [detect_fvg_at_iff data s i FvgDir.bear h2 hlen]
    simp only [fvg_at, hguard, if_false]
    constructor
    · rintro ⟨f, he, hdir⟩
      split_ifs at he with hb hthr hbear hthr'
      all_goals
        first
          | exact Option.noConfusion he
          | (cases Option.some.inj he; exact FvgDir.noConfusion hdir)
          | (cases Option.some.inj he; exact ⟨hbear, hthr'⟩)
    · rintro ⟨hbear, hthr⟩
      rw [if_neg (hexcl hbear), if_pos hbear, if_pos hthr]
      exact ⟨_, rfl, rfl⟩

/-- C8 witness: the spec's concrete scenario, with all three bar ranges
equal to 5, establishes a bullish gap record at index 2. -/
theorem c8_witness :
    2 ≤ 2 ∧ 2 < gapBars.length ∧ (∀ b ∈ gapBars, b.lo ≤ b.hi) ∧
    (∃ f ∈ detect_fvg gapBars (4/5), f.idx = 2 ∧ f.dir = FvgDir.bull) :=
  ⟨le_refl 2, by decide, by decide,
    ((c8_fvg_characterization gapBars (4/5) 2 (le_refl 2) (by decide)
      (by decide)).1).mpr (by decide)⟩

/-- C9 (corrected): no-signal paths are ordinary return values.  Signal
generation is a total function returning an optional signal, and it
returns none whenever the 15-minute frame has fewer than 20 bars; whenever
no gap confirmation exists, i.e. no detected 15-minute fair value gap of
the signal direction validates around the current price; and whenever no
liquidity confirmation exists, i.e. for a BUY the liquidity high is at or
below the current price, and for a SELL the liquidity low is at or above
it.  The claim's broader reading, that short history in any required
timeframe forces no signal, is false: an empty 4-hour frame does not block
the secondary 15-minute path (see the counterexample). -/
theorem c9_no_signal_amended (ha rs : Bool) (data : MtfData) (p : ℚ) :
    (data.d15min.length < 20 → generate_signal ha rs data p = none) ∧
    (∀ dir, (analyze_multi_timeframe data).direction = some dir →
      valid_fvg_check (detect_fvg data.d15min FVG_SENSITIVITY) dir p = false →
      generate_signal ha rs data p = none) ∧
    ((analyze_multi_timeframe data).direction = some Dir.BUY →
      (analyze_multi_timeframe data).liquidity_high ≤ p →
      generate_signal ha rs data p = none) ∧
    ((analyze_multi_timeframe data).direction = some Dir.SELL →
      p ≤ (analyze_multi_timeframe data).liquidity_low →
      generate_signal ha rs data p = none) := by
  cases ha with
  | true => exact ⟨fun _ => rfl, fun _ _ _ => rfl, fun _ _ => rfl, fun _ _ => rfl⟩
  | false =>
    cases rs with
    | true => exact ⟨fun _ => rfl, fun _ _ _ => rfl, fun _ _ => rfl, fun _ _ => rfl⟩
    | false =>
      refine ⟨?_, ?_, ?_, ?_⟩
      · intro hc
        simp only [generate_signal, Bool.false_eq_true, if_false]
        rcases hdir : (analyze_multi_timeframe data).direction with _ | dir
        · rfl
        · split_ifs with hconf hlen
          all_goals first
            | rfl
            | exact absurd hc hlen
            | (cases dir <;> rfl)
      · intro dir hdir hval
        simp only [generate_signal, Bool.false_eq_true, if_false, hdir]
        split_ifs with hconf hlen hv
        all_goals first
          | rfl
          | exact absurd hval hv
      · intro hdir hliq
        simp only [generate_signal, Bool.false_eq_true, if_false, hdir]
        split_ifs with hconf hlen hv hl
        all_goals first
          | rfl
          | exact absurd hliq hl
      · intro hdir hliq
        simp only [generate_signal, Bool.false_eq_true, if_false, hdir]
        split_ifs with hconf hlen hv hl
        all_goals first
          | rfl
          | exact absurd hliq hl

/-- C9 counterexample: the 4-hour frame is empty (0 < 20 bars of history),
yet generate_signal still emits a BUY signal from the 15-minute data
alone, instead of returning none as the claim requires. -/
theorem c9_counterexample :
    mtfD0.d4hr.length < 20 ∧
    generate_signal false false mtfD0 124 = some sig0 := ⟨by decide, by decide⟩

/-- C9 witness: three live no-signal instantiations of the amended
theorem — an empty 15-minute frame; the 21-bar history at price 1000,
where the bullish gap does not validate (1000 is outside the gap's entry
zone); and the same history at price 126, above its liquidity high 125. -/
theorem c9_witness :
    (([] : List Bar).length < 20 ∧
      generate_signal false false ⟨[], [], [], []⟩ 0 = none) ∧
    ((analyze_multi_timeframe mtfD0).direction = some Dir.BUY ∧
      valid_fvg_check (detect_fvg mtfD0.d15min FVG_SENSITIVITY) Dir.BUY 1000 =
        false ∧
      generate_signal false false mtfD0 1000 = none) ∧
    ((analyze_multi_timeframe mtfD0).liquidity_high ≤ 126 ∧
      generate_signal false false mtfD0 126 = none) :=
  ⟨⟨by decide,
     (c9_no_signal_amended false false ⟨[], [], [], []⟩ 0).1 (by decide)⟩,
   ⟨by decide, by decide,
     (c9_no_signal_amended false false mtfD0 1000).2.1 Dir.BUY (by decide)
       (by decide)⟩,
   ⟨by decide,
     (c9_no_signal_amended false false mtfD0 126).2.2.1 (by decide)
       (by decide)⟩⟩

/-- C10 (confirmed): well-formedness of every emitted signal.  Whenever
generate_signal returns a signal, its risk distance is strictly positive,
its stop-loss is strictly below the entry for a BUY and strictly above it
for a SELL, and its confidence is at most 1. -/
theorem c10_signal_well_formed (ha rs : Bool) (data : MtfData) (p : ℚ)
    (sg : Signal) (h : generate_signal ha rs data p = some sg) :
    0 < sg.risk_distance ∧
    (sg.act = Dir.BUY → sg.stop_loss < sg.entry_price) ∧
    (sg.act = Dir.SELL → sg.entry_price < sg.stop_loss) ∧
    sg.confidence ≤ 1 := by
  cases ha with
  | true => exact Option.noConfusion h
  | false =>
  cases rs with
  | true => exact Option.noConfusion h
  | false =>
  simp only [generate_signal, Bool.false_eq_true, if_false] at h
  rcases hdir : (analyze_multi_timeframe data).direction with _ | dir
  · rw [hdir] at h
    exact Option.noConfusion h
  · rw [hdir] at h
    cases dir with
    | BUY =>
      dsimp only at h
      split_ifs at h with hconf hlen hvalid hliq hrisk
      all_goals try exact Option.noConfusion h
      cases Option.some.inj h
      refine ⟨not_le.mp hrisk, fun _ => ?_, fun habs => Dir.noConfusion habs, ?_⟩
      · have := not_le.mp hrisk
        simp only at this ⊢
        linarith
      · exact min_le_right _ _
    | SELL =>
      dsimp only at h
      split_ifs at h with hconf hlen hvalid hliq hrisk
      all_goals try exact Option.noConfusion h
      cases Option.some.inj h
      refine ⟨not_le.mp hrisk, fun habs => Dir.noConfusion habs, fun _ => ?_, ?_⟩
      · have := not_le.mp hrisk
        simp only at this ⊢
        linarith
      · exact min_le_right _ _

/-- C10 witness: a concrete emission.  On the 21-bar 15-minute history the
generator emits the BUY signal sig0 (entry 124, stop 95, risk 29,
confidence 4/5), and the well-formedness theorem applies to it. -/
theorem c10_witness :
    generate_signal false false mtfD0 124 = some sig0 ∧
    (0 < sig0.risk_distance ∧
     (sig0.act = Dir.BUY → sig0.stop_loss < sig0.entry_price) ∧
     (sig0.act = Dir.SELL → sig0.entry_price < sig0.stop_loss) ∧
     sig0.confidence ≤ 1) :=
  ⟨by decide, c10_signal_well_formed false false mtfD0 124 sig0 (by decide)⟩

theorem le_foldl_max (l : List ℚ) (a : ℚ) : a ≤ l.foldl max a := by
  induction l generalizing a with
  | nil => exact le_refl a
  | cons x xs ih => exact le_trans (le_max_left a x) (ih (max a x))

theorem mem_le_foldl_max (l : List ℚ) (a : ℚ) : ∀ x ∈ l, x ≤ l.foldl max a := by
  induction l generalizing a with
  | nil =>
    intro x hx
    exact absurd hx (List.not_mem_nil x)
  | cons y ys ih =>
    intro x hx
    rcases List.mem_cons.mp hx with rfl | hx'
    · exact le_trans (le_max_right a x) (le_foldl_max ys (max a x))
    · exact ih (max a y) x hx'

theorem foldl_max_mem (l : List ℚ) (a : ℚ) :
    l.foldl max a = a ∨ l.foldl max a ∈ l := by
  induction l generalizing a with
  | nil => exact Or.inl rfl
  | cons x xs ih =>
    rcases ih (max a x) with h | h
    · rcases max_choice a x with hm | hm
      · exact Or.inl (by rw [List.foldl_cons, h, hm])
      · refine Or.inr ?_
        rw [List.foldl_cons, h, hm]
        exact List.mem_cons_self x xs
    · exact Or.inr (List.mem_cons_of_mem x h)

theorem foldl_min_le (l : List ℚ) (a : ℚ) : l.foldl min a ≤ a := by
  induction l generalizing a with
  | nil => exact le_refl a
  | cons x xs ih => exact le_trans (ih (min a x)) (min_le_left a x)

theorem foldl_min_le_mem (l : List ℚ) (a : ℚ) : ∀ x ∈ l, l.foldl min a ≤ x := by
  induction l generalizing a with
  | nil =>
    intro x hx
    exact absurd hx (List.not_mem_nil x)
  | cons y ys ih =>
    intro x hx
    rcases List.mem_cons.mp hx with rfl | hx'
    · exact le_trans (foldl_min_le ys (min a x)) (min_le_right a x)
    · exact ih (min a y) x hx'

theorem foldl_min_mem (l : List ℚ) (a : ℚ) :
    l.foldl min a = a ∨ l.foldl min a ∈ l := by
  induction l generalizing a with
  | nil => exact Or.inl rfl
  | cons x xs ih =>
    rcases ih (min a x) with h | h
    · rcases min_choice a x with hm | hm
      · exact Or.inl (by rw [List.foldl_cons, h, hm])
      · refine Or.inr ?_
        rw [List.foldl_cons, h, hm]
        exact List.mem_cons_self x xs
    · exact Or.inr (List.mem_cons_of_mem x h)

theorem listMaxD_mem (l : List ℚ) (hne : l ≠ []) : listMaxD l ∈ l := by
  cases l with
  | nil => exact absurd rfl hne
  | cons x xs =>
    rcases foldl_max_mem xs x with h | h
    · rw [listMaxD, h]
      exact List.mem_cons_self x xs
    · rw [listMaxD]
      exact List.mem_cons_of_mem x h

theorem le_listMaxD (l : List ℚ) (x : ℚ) (hx : x ∈ l) : x ≤ listMaxD l := by
  cases l with
  | nil => exact absurd hx (List.not_mem_nil x)
  | cons y ys =>
    rcases List.mem_cons.mp hx with rfl | hx'
    · exact le_foldl_max ys x
    · exact mem_le_foldl_max ys y x hx'

theorem listMinD_mem (l : List ℚ) (hne : l ≠ []) : listMinD l ∈ l := by
  cases l with
  | nil => exact absurd rfl hne
  | cons x xs =>
    rcases foldl_min_mem xs x with h | h
    · rw [listMinD, h]
      exact List.mem_cons_self x xs
    · rw [listMinD]
      exact List.mem_cons_of_mem x h

theorem listMinD_le (l : List ℚ) (x : ℚ) (hx : x ∈ l) : listMinD l ≤ x := by
  cases l with
  | nil => exact absurd hx (List.not_mem_nil x)
  | cons y ys =>
    rcases List.mem_cons.mp hx with rfl | hx'
    · exact foldl_min_le ys x
    · exact foldl_min_le_mem ys y x hx'

theorem foldl_natmin_le_init (l : List TBar) (a : ℕ) :
    l.foldl (fun b y => min b y.1) a ≤ a := by
  induction l generalizing a with
  | nil => exact le_refl a
  | cons x xs ih => exact le_trans (ih (min a x.1)) (min_le_left a x.1)

theorem foldl_natmin_le_mem (l : List TBar) (a : ℕ) :
    ∀ x ∈ l, l.foldl (fun b y => min b y.1) a ≤ x.1 := by
  induction l generalizing a with
  | nil =>
    intro x hx
    exact absurd hx (List.not_mem_nil x)
  | cons y ys ih =>
    intro x hx
    rcases List.mem_cons.mp hx with rfl | hx'
    · exact le_trans (foldl_natmin_le_init ys (min a x.1)) (min_le_right a x.1)
    · exact ih (min a y.1) x hx'

theorem foldl_natmax_init_le (l : List TBar) (a : ℕ) :
    a ≤ l.foldl (fun b y => max b y.1) a := by
  induction l generalizing a with
  | nil => exact le_refl a
  | cons x xs ih => exact le_trans (le_max_left a x.1) (ih (max a x.1))

theorem foldl_natmax_mem_le (l : List TBar) (a : ℕ) :
    ∀ x ∈ l, x.1 ≤ l.foldl (fun b y => max b y.1) a := by
  induction l generalizing a with
  | nil =>
    intro x hx
    exact absurd hx (List.not_mem_nil x)
  | cons y ys ih =>
    intro x hx
    rcases List.mem_cons.mp hx with rfl | hx'
    · exact le_trans (le_max_right a x.1) (foldl_natmax_init_le ys (max a x.1))
    · exact ih (max a y.1) x hx'

theorem minTimeD_le (df : List TBar) (x : TBar) (hx : x ∈ df) :
    minTimeD df ≤ x.1 := by
  cases df with
  | nil => exact absurd hx (List.not_mem_nil x)
  | cons y ys =>
    rcases List.mem_cons.mp hx with rfl | hx'
    · exact foldl_natmin_le_init ys x.1
    · exact foldl_natmin_le_mem ys y.1 x hx'

theorem le_maxTimeD (df : List TBar) (x : TBar) (hx : x ∈ df) :
    x.1 ≤ maxTimeD df := by
  cases df with
  | nil => exact absurd hx (List.not_mem_nil x)
  | cons y ys =>
    rcases List.mem_cons.mp hx with rfl | hx'
    · exact foldl_natmax_init_le ys x.1
    · exact foldl_natmax_mem_le ys y.1 x hx'

theorem sorted_head_le (g : TBar) (gs : List TBar)
    (hs : (g :: gs).Pairwise (fun a b => a.1 < b.1)) :
    ∀ y ∈ g :: gs, g.1 ≤ y.1 := by
  intro y hy
  rcases List.mem_cons.mp hy with rfl | hy'
  · exact le_refl _
  · exact le_of_lt ((List.pairwise_cons.mp hs).1 y hy')

theorem resample_mem_spec (k : ℕ) (df : List TBar) (hk : 0 < k) (e : TBar)
    (he : e ∈ resample_dataframe k df) :
    ∃ g gs, window_group k df (e.1 / k) = g :: gs ∧ e.2 = agg_bar g gs := by
  cases df with
  | nil => exact absurd he (List.not_mem_nil e)
  | cons x xs =>
    simp only [resample_dataframe, List.mem_filterMap, List.mem_range] at he
    obtain ⟨j, hj, hsome⟩ := he
    cases hw : window_group k (x :: xs) (minTimeD (x :: xs) / k + j) with
    | nil =>
      rw [hw] at hsome
      exact Option.noConfusion hsome
    | cons g gs =>
      rw [hw] at hsome
      cases Option.some.inj hsome
      refine ⟨g, gs, ?_, rfl⟩
      have hdiv : (minTimeD (x :: xs) / k + j) * k / k =
          minTimeD (x :: xs) / k + j := Nat.mul_div_cancel _ hk
      rw [hdiv]
      exact hw

/-- C3 (corrected): the resampler.  Every emitted derived bar aggregates
exactly the base bars of its window: its open is the first base open (the
member with minimal timestamp), its close the last base close (maximal
timestamp), its high and low are attained window extremes, and its volume
is the window sum.  But the claim's tail condition is false: pandas
resample + dropna drops only windows containing no base bar at all, so a
window is emitted exactly when at least one of its constituent bars is
present — a partial window at the tail of the series IS produced (see the
counterexample). -/
theorem c3_resample_amended (k : ℕ) (df : List TBar) (hk : 0 < k)
    (hs : df.Pairwise (fun a b => a.1 < b.1)) :
    (∀ e ∈ resample_dataframe k df,
      window_group k df (e.1 / k) ≠ [] ∧
      (∃ x0, (window_group k df (e.1 / k)).head? = some x0 ∧
        e.2.op = x0.2.op ∧ ∀ y ∈ window_group k df (e.1 / k), x0.1 ≤ y.1) ∧
      (∃ xn, (window_group k df (e.1 / k)).getLast? = some xn ∧
        e.2.cl = xn.2.cl ∧ ∀ y ∈ window_group k df (e.1 / k), y.1 ≤ xn.1) ∧
      (∃ x ∈ window_group k df (e.1 / k), e.2.hi = x.2.hi) ∧
      (∀ x ∈ window_group k df (e.1 / k), x.2.hi ≤ e.2.hi) ∧
      (∃ x ∈ window_group k df (e.1 / k), e.2.lo = x.2.lo) ∧
      (∀ x ∈ window_group k df (e.1 / k), e.2.lo ≤ x.2.lo) ∧
      e.2.vol = ((window_group k df (e.1 / k)).map (fun x => x.2.vol)).sum) ∧
    (∀ x ∈ df, ∃ e ∈ resample_dataframe k df, e.1 = x.1 / k * k) := by
  constructor
  · intro e he
    obtain ⟨g, gs, hw, hagg⟩ := resample_mem_spec k df hk e he
    have hsg : (g :: gs).Pairwise (fun a b => a.1 < b.1) := by
      rw [← hw]
      exact hs.filter _
    rw [hw]
    refine ⟨List.cons_ne_nil g gs, ?_, ?_, ?_, ?_, ?_, ?_, ?_⟩
    · exact ⟨g, rfl, by rw [hagg]; rfl, sorted_head_le g gs hsg⟩
    · refine ⟨(g :: gs).getLast (List.cons_ne_nil g gs),
        List.getLast?_eq_getLast _ _, by rw [hagg]; rfl, ?_⟩
      intro y hy
      exact le_getLast_of_sorted _ hsg y hy _
    · rw [hagg]
      simp only [agg_bar]
      have hmem := listMaxD_mem ((g :: gs).map (fun x => x.2.hi)) (by simp)
      obtain ⟨x, hx, hxe⟩ := List.mem_map.mp hmem
      exact ⟨x, hx, hxe.symm⟩
    · intro x hx
      rw [hagg]
      simp only [agg_bar]
      exact le_listMaxD _ _ (List.mem_map.mpr ⟨x, hx, rfl⟩)
    · rw [hagg]
      simp only [agg_bar]
      have hmem := listMinD_mem ((g :: gs).map (fun x => x.2.lo)) (by simp)
      obtain ⟨x, hx, hxe⟩ := List.mem_map.mp hmem
      exact ⟨x, hx, hxe.symm⟩
    · intro x hx
      rw [hagg]
      simp only [agg_bar]
      exact listMinD_le _ _ (List.mem_map.mpr ⟨x, hx, rfl⟩)
    · rw [hagg]
      rfl
  · intro x hx
    cases df with
    | nil => exact absurd hx (List.not_mem_nil x)
    | cons y ys =>
      have h1 : minTimeD (y :: ys) ≤ x.1 := minTimeD_le _ x hx
      have h2 : x.1 ≤ maxTimeD (y :: ys) := le_maxTimeD _ x hx
      have hw0 : minTimeD (y :: ys) / k ≤ x.1 / k := Nat.div_le_div_right h1
      have hw1 : x.1 / k ≤ maxTimeD (y :: ys) / k := Nat.div_le_div_right h2
      have hx_w : x ∈ window_group k (y :: ys) (x.1 / k) := by
        simp only [window_group, List.mem_filter]
        exact ⟨hx, by simp⟩
      cases hwg : window_group k (y :: ys) (x.1 / k) with
      | nil =>
        rw [hwg] at hx_w
        exact absurd hx_w (List.not_mem_nil x)
      | cons g gs =>
        refine ⟨(x.1 / k * k, agg_bar g gs), ?_, rfl⟩
        simp only [resample_dataframe, List.mem_filterMap, List.mem_range]
        refine ⟨x.1 / k - minTimeD (y :: ys) / k, by omega, ?_⟩
        have heq : minTimeD (y :: ys) / k + (x.1 / k - minTimeD (y :: ys) / k) =
            x.1 / k := by omega
        rw [heq, hwg]

/-- C3 counterexample: three 1-minute bars at minutes 0, 1, 2 resampled to
5 minutes.  The 5-minute window starting at 0 has only 3 of its 5
constituent base bars, yet it is emitted (aggregating those three bars);
under the claim no bar would be produced. -/
theorem c3_counterexample :
    resample_dataframe 5 base3 = [(0, ⟨10, 14, 8, 9, 16⟩)] ∧
    (window_group 5 base3 0).length = 3 ∧ base3.length < 5 := by decide

/-- C3 witness: the amended aggregation theorem applied to the concrete
three-bar series at frequency 5. -/
theorem c3_witness :
    0 < 5 ∧ List.Pairwise (fun a b : TBar => a.1 < b.1) base3 ∧
    ∀ e ∈ resample_dataframe 5 base3,
      window_group 5 base3 (e.1 / 5) ≠ [] ∧
      (∀ x ∈ window_group 5 base3 (e.1 / 5), x.2.hi ≤ e.2.hi) ∧
      e.2.vol = ((window_group 5 base3 (e.1 / 5)).map (fun x => x.2.vol)).sum :=
  ⟨by norm_num, by decide, fun e he =>
    have h := (c3_resample_amended 5 base3 (by norm_num) (by decide)).1 e he
    ⟨h.1, h.2.2.2.2.1, h.2.2.2.2.2.2.2⟩⟩

end Clawa
